import Mathlib

/-!
Verification development for the network-management-client graph core.

The repository provides two source files:
  * `src-tauri/src/mocks/init/init_graph.rs` — the Graph Builder
    (`init_graph`, `add_node_to_graph_if_not_exists`, `get_distance`);
  * `src-tauri/src/global/algo_store.rs` — the `AlgoStore` result cache.

Those files reference code that is not part of the provided sources
(`Graph` in `graph_ds.rs`, `edge_factory`, `total_distance`, the
conversion-factor constants, and the five per-analysis result enums).
Each such missing piece is modelled from the specification; its doc
comment starts with `Modelled from the spec:` and names what is missing.

Embedding conventions: `u32`/`u64` become `Nat` (the code only compares
and copies them; no wrapping arithmetic occurs), `f64` becomes `ℝ`,
Rust `HashMap`s become association lists whose list order stands for the
map's iteration order, and code that can panic (`unwrap` on a missing
location or position) returns `Option`, with `none` for the panic.
Node names: the Rust code names graph nodes by `node_id.to_string()`;
since `to_string` on `u32` is injective, the embedding uses the numeric
identifier itself as the node name.
-/

/-- Position record (`protobufs::Position`): the three fields read by
`get_distance` — latitude and longitude in fixed-point integer degrees
(×1e-7 scale, signed 32-bit) and altitude in meters. -/
structure Position where
  latitude_i : Int
  longitude_i : Int
  altitude : Int
deriving DecidableEq

/-- Node info record (`protobufs::NodeInfo`): the numeric identifier and
the optional position, the fields the Builder reads. -/
structure NodeInfo where
  num : Nat
  position : Option Position
deriving DecidableEq

/-- Mesh node record (`crate::mesh::device::MeshNode`): wraps a
`NodeInfo` in its `data` field. -/
structure MeshNode where
  data : NodeInfo
deriving DecidableEq

/-- Modelled from the spec: `LAT_CONVERSION_FACTOR` from the missing
`aux_functions/conversion_factors.rs` — 1e-7 conversion from fixed-point
integer degrees to floating-point degrees. -/
noncomputable def LAT_CONVERSION_FACTOR : ℝ := 1 / 10 ^ 7

/-- Modelled from the spec: `LON_CONVERSION_FACTOR` from the missing
`aux_functions/conversion_factors.rs` — 1e-7 conversion from fixed-point
integer degrees to floating-point degrees. -/
noncomputable def LON_CONVERSION_FACTOR : ℝ := 1 / 10 ^ 7

/-- Modelled from the spec: `ALT_CONVERSION_FACTOR` from the missing
`aux_functions/conversion_factors.rs` — altitude is already in meters,
so the factor is 1. -/
noncomputable def ALT_CONVERSION_FACTOR : ℝ := 1

/-- Modelled from the spec: mean earth radius (meters) for the
spherical-earth distance formula of the missing
`aux_functions/take_snapshot.rs`. -/
noncomputable def EARTH_RADIUS : ℝ := 6371000

/-- Modelled from the spec: the great-circle (haversine) part of the
spherical-earth distance formula used by the missing `total_distance`;
inputs are floating-point degrees, converted to radians inside. -/
noncomputable def haversine (lat1 lon1 lat2 lon2 : ℝ) : ℝ :=
  let p1 := lat1 * (Real.pi / 180)
  let p2 := lat2 * (Real.pi / 180)
  let l1 := lon1 * (Real.pi / 180)
  let l2 := lon2 * (Real.pi / 180)
  2 * EARTH_RADIUS * Real.arcsin (Real.sqrt
    (Real.sin ((p2 - p1) / 2) ^ 2 +
      Real.cos p1 * Real.cos p2 * Real.sin ((l2 - l1) / 2) ^ 2))

/-- Modelled from the spec: `total_distance` from the missing
`aux_functions/take_snapshot.rs` — the geodesic distance between two
points given as (degrees latitude, degrees longitude, altitude in
meters), combining the spherical ground distance with the altitude
difference. -/
noncomputable def total_distance (lat1 lon1 alt1 lat2 lon2 alt2 : ℝ) : ℝ :=
  Real.sqrt (haversine lat1 lon1 lat2 lon2 ^ 2 + (alt2 - alt1) ^ 2)

/-- `get_distance` from `init_graph.rs`: unwraps both nodes' positions,
converts fixed-point degrees via the conversion factors, and calls
`total_distance`. The Rust code panics when a position is absent; the
embedding returns `none` there. -/
noncomputable def get_distance (node_1 node_2 : MeshNode) : Option ℝ :=
  match node_1.data.position, node_2.data.position with
  | some p1, some p2 =>
    some (total_distance
      ((p1.latitude_i : ℝ) * LAT_CONVERSION_FACTOR)
      ((p1.longitude_i : ℝ) * LON_CONVERSION_FACTOR)
      ((p1.altitude : ℝ) * ALT_CONVERSION_FACTOR)
      ((p2.latitude_i : ℝ) * LAT_CONVERSION_FACTOR)
      ((p2.longitude_i : ℝ) * LON_CONVERSION_FACTOR)
      ((p2.altitude : ℝ) * ALT_CONVERSION_FACTOR))
  | _, _ => none

/-- Modelled from the spec: one undirected weighted edge of the missing
`graph_ds.rs` `Graph` — two endpoint node indices and one resolved
weight. -/
structure GraphEdge where
  u : Nat
  v : Nat
  weight : ℝ

/-- Modelled from the spec: the `Graph` of the missing `graph_ds.rs` —
a list of node names (a name's list position is its dense internal
`NodeIndex`, so the name↔index table is the list itself) and a list of
undirected weighted edges stored by endpoint indices. -/
structure Graph where
  nodes : List Nat
  edges : List GraphEdge

/-- The canonical (sorted) representative of an unordered pair, used to
compare undirected edges. -/
def canonical_pair (u v : Nat) : Nat × Nat :=
  if u ≤ v then (u, v) else (v, u)

/-- Modelled from the spec: `Graph::new()` — the empty graph. -/
def Graph.new : Graph := ⟨[], []⟩

/-- Modelled from the spec: `Graph::contains_node` — name membership,
no side effect. -/
def Graph.contains_node (g : Graph) (name : Nat) : Bool :=
  g.nodes.contains name

/-- Modelled from the spec: `Graph::add_node` — appends the name with
the next dense index. The raw insert is unconditional (the caller
`add_node_to_graph_if_not_exists` in `init_graph.rs` guards it with
`contains_node`, which is what makes insertion idempotent). -/
def Graph.add_node (g : Graph) (name : Nat) : Graph :=
  ⟨g.nodes ++ [name], g.edges⟩

/-- Modelled from the spec: `Graph::get_node_idx` — the node's internal
index (position of its name in the node table). -/
def Graph.get_node_idx (g : Graph) (name : Nat) : Nat :=
  g.nodes.indexOf name

/-- Modelled from the spec: `Graph::add_edge_from_struct` — inserts one
undirected weighted edge; inserting a second edge for the same
unordered pair must not create a parallel edge, so it replaces any
stored edge for that pair. -/
def Graph.add_edge_from_struct (g : Graph) (e : GraphEdge) : Graph :=
  ⟨g.nodes,
    (g.edges.filter fun e0 =>
      ¬ (canonical_pair e0.u e0.v = canonical_pair e.u e.v)) ++ [e]⟩

/-- Modelled from the spec: `Graph::get_order` — the node count. -/
def Graph.get_order (g : Graph) : Nat := g.nodes.length

/-- Modelled from the spec: `Graph::get_size` — the edge count. -/
def Graph.get_size (g : Graph) : Nat := g.edges.length

/-- Modelled from the spec: `Graph::get_edge_weight` — the stored
weight for the unordered pair of the two named nodes; the trailing
direction / tie-break flags exist for callers probing directional
contributions, but one resolved scalar is stored per pair, so they do
not change the stored weight that is returned. -/
def Graph.get_edge_weight (g : Graph) (u v : Nat)
    (_direction : Option Bool) (_prefer_smaller : Option Bool) : Option ℝ :=
  (g.edges.find? fun e =>
    canonical_pair e.u e.v = canonical_pair (g.get_node_idx u) (g.get_node_idx v)).map
    GraphEdge.weight

/-- Modelled from the spec: the numeric combination of geodesic distance
and signal quality into one edge weight. The spec leaves the exact
formula open (it is evidenced by a single worked example) and asks for
one fixed combining function; this model uses the mean of the two
inputs. No theorem below depends on the particular formula. -/
noncomputable def edge_weight (distance radio_quality : ℝ) : ℝ :=
  (distance + radio_quality) / 2

/-- Minimum of a list of weights, `none` for the empty list; used to
resolve several directional observations of one unordered pair into the
numerically smaller computed weight. -/
noncomputable def minFold : List ℝ → Option ℝ
  | [] => none
  | x :: l =>
    some (match minFold l with
      | none => x
      | some m => min x m)

/-- Modelled from the spec: `edge_factory` from the missing
`aux_functions/edge_factory.rs`. It receives parallel vectors of edge
endpoints (as node indices), distances and radio qualities — note that
its caller passes it no timestamps — plus two optional weighting
parameters, and emits exactly one edge per unordered endpoint pair,
never a parallel edge. Each observation's weight combines its distance
and signal quality through `edge_weight`; when several observations
cover the same unordered pair, the spec's residual tie-break (prefer
the numerically smaller computed weight) resolves them, since no
timestamp information reaches this function. -/
noncomputable def edge_factory (lefts rights : List Nat)
    (distances radio_qualities : List ℝ)
    (_distance_weight _radio_quality_weight : Option ℝ) : List GraphEdge :=
  let obs := (lefts.zip rights).zip (distances.zip radio_qualities)
  let keys := (obs.map fun o => canonical_pair o.1.1 o.1.2).dedup
  keys.map fun p =>
    { u := p.1
      v := p.2
      weight :=
        (minFold ((obs.filter fun o => canonical_pair o.1.1 o.1.2 = p).map
          fun o => edge_weight o.2.1 o.2.2)).getD 0 }

/-- `add_node_to_graph_if_not_exists` from `init_graph.rs`: insert the
node's name unless it is already present. -/
def add_node_to_graph_if_not_exists (graph : Graph) (node_id : Nat) : Graph :=
  if graph.contains_node node_id then graph else graph.add_node node_id

/-- The accumulator of `init_graph`'s single pass over the snapshot:
the graph under construction and the four parallel edge vectors. -/
structure LoopState where
  graph : Graph
  edge_left_endpoints : List Nat
  edge_right_endpoints : List Nat
  edge_distances : List ℝ
  edge_radio_quality : List ℝ

/-- The `for neighbor_pair in snr_hashmap` loop of `init_graph`: for
each observation, insert both endpoints, look up their indices, read
the SNR (the timestamp component of the value is never read), look up
both locations (`unwrap`: `none` on a missing entry), compute the
distance (`none` on a missing position), and push onto the four edge
vectors. -/
noncomputable def init_graph_loop (loc_hashmap : List (Nat × MeshNode)) :
    List ((Nat × Nat) × (ℝ × Nat)) → LoopState → Option LoopState
  | [], st => some st
  | neighbor_pair :: rest, st =>
    let node_id := neighbor_pair.1.1
    let neighbor_id := neighbor_pair.1.2
    let g1 := add_node_to_graph_if_not_exists st.graph node_id
    let g2 := add_node_to_graph_if_not_exists g1 neighbor_id
    let node_idx := g2.get_node_idx node_id
    let neighbor_idx := g2.get_node_idx neighbor_id
    let snr := neighbor_pair.2.1
    match loc_hashmap.lookup node_id, loc_hashmap.lookup neighbor_id with
    | some node_loc, some neighbor_loc =>
      match get_distance node_loc neighbor_loc with
      | some distance =>
        init_graph_loop loc_hashmap rest
          ⟨g2,
            st.edge_left_endpoints ++ [node_idx],
            st.edge_right_endpoints ++ [neighbor_idx],
            st.edge_distances ++ [distance],
            st.edge_radio_quality ++ [snr]⟩
      | none => none
    | _, _ => none

/-- `init_graph` from `init_graph.rs`: one pass over the snapshot
building the node set and the four edge vectors, then `edge_factory`,
then adding each produced edge to the graph. The snapshot maps an
ordered `(nodeId, neighborId)` pair to `(signalQuality, timestamp)`;
the location map sends a node id to its record. `none` models the
panics on a missing location entry or position. -/
noncomputable def init_graph (snr_hashmap : List ((Nat × Nat) × (ℝ × Nat)))
    (loc_hashmap : List (Nat × MeshNode)) : Option Graph :=
  match init_graph_loop loc_hashmap snr_hashmap ⟨Graph.new, [], [], [], []⟩ with
  | none => none
  | some st =>
    let edges := edge_factory st.edge_left_endpoints st.edge_right_endpoints
      st.edge_distances st.edge_radio_quality none none
    some (edges.foldl Graph.add_edge_from_struct st.graph)

/-- Modelled from the spec: `APResult` from the missing
`state_err_enums/ap.rs` — the three-state articulation-points result
(`AlgoStore::new` builds the `Empty` variant with a boolean payload). -/
inductive APResult where
  | Empty (b : Bool)
  | Success (aps : List Nat)
  | Error (e : String)
deriving DecidableEq

/-- Modelled from the spec: `MinCutResult` from the missing
`state_err_enums/mincut.rs` — the three-state minimum-cut result. -/
inductive MinCutResult where
  | Empty (b : Bool)
  | Success (cut : List GraphEdge)
  | Error (e : String)

/-- Modelled from the spec: `DiffCenResult` from the missing
`state_err_enums/diff_cen.rs` — the three-state diffusion-centrality
result with a per-node score mapping. -/
inductive DiffCenResult where
  | Empty (b : Bool)
  | Success (scores : List (Nat × ℝ))
  | Error (e : String)

/-- Modelled from the spec: `MostSimTResult` from the missing
`state_err_enums/most_sim_timeline.rs` — the three-state most-similar
timeline result carrying a full `Graph`. -/
inductive MostSimTResult where
  | Empty (b : Bool)
  | Success (g : Graph)
  | Error (e : String)

/-- Modelled from the spec: `PredStateResult` from the missing
`state_err_enums/pred_state.rs` — the three-state predicted-state
result carrying a full `Graph`. -/
inductive PredStateResult where
  | Empty (b : Bool)
  | Success (g : Graph)
  | Error (e : String)

/-- `AlgoStore` from `algo_store.rs`: one result slot per analysis. -/
structure AlgoStore where
  aps : APResult
  mincut : MinCutResult
  diff_cent : DiffCenResult
  most_sim_t : MostSimTResult
  pred_state : PredStateResult

/-- `AlgoStore::new`: all five slots start `Empty(true)`. -/
def AlgoStore.new : AlgoStore :=
  ⟨APResult.Empty true, MinCutResult.Empty true, DiffCenResult.Empty true,
    MostSimTResult.Empty true, PredStateResult.Empty true⟩

/-- `AlgoStore::get_aps`. -/
def AlgoStore.get_aps (s : AlgoStore) : APResult := s.aps

/-- `AlgoStore::get_mincut`. -/
def AlgoStore.get_mincut (s : AlgoStore) : MinCutResult := s.mincut

/-- `AlgoStore::get_diff_cent`. -/
def AlgoStore.get_diff_cent (s : AlgoStore) : DiffCenResult := s.diff_cent

/-- `AlgoStore::get_most_sim_t`. -/
def AlgoStore.get_most_sim_t (s : AlgoStore) : MostSimTResult := s.most_sim_t

/-- `AlgoStore::get_pred_state`. -/
def AlgoStore.get_pred_state (s : AlgoStore) : PredStateResult := s.pred_state

/-- `AlgoStore::set_aps`: replace the articulation-points slot with the
given `APResult` value. -/
def AlgoStore.set_aps (s : AlgoStore) (aps : APResult) : AlgoStore :=
  { s with aps := aps }

/-- `AlgoStore::set_mincut`. -/
def AlgoStore.set_mincut (s : AlgoStore) (mincut : MinCutResult) : AlgoStore :=
  { s with mincut := mincut }

/-- `AlgoStore::set_diff_cent`. -/
def AlgoStore.set_diff_cent (s : AlgoStore) (diff_cent : DiffCenResult) : AlgoStore :=
  { s with diff_cent := diff_cent }

/-- `AlgoStore::set_most_sim_t`: accepts a `Graph` directly and always
stores it wrapped as `Success`. -/
def AlgoStore.set_most_sim_t (s : AlgoStore) (most_sim_t : Graph) : AlgoStore :=
  { s with most_sim_t := MostSimTResult.Success most_sim_t }

/-- `AlgoStore::set_pred_state`: accepts a `Graph` directly and always
stores it wrapped as `Success`. -/
def AlgoStore.set_pred_state (s : AlgoStore) (pred_state : Graph) : AlgoStore :=
  { s with pred_state := PredStateResult.Success pred_state }

/-- An interleaved sequence of calls through the two graph-valued
setters: `Sum.inl g` is `set_pred_state(g)`, `Sum.inr g` is
`set_most_sim_t(g)`, applied left to right. -/
def apply_graph_setters (s : AlgoStore) (calls : List (Graph ⊕ Graph)) : AlgoStore :=
  calls.foldl
    (fun acc c =>
      match c with
      | Sum.inl g => acc.set_pred_state g
      | Sum.inr g => acc.set_most_sim_t g) s

/-! ### Reference semantics helpers -/

/-- The node identifiers appearing as either component of any
observation key, in iteration order. -/
def flatten_ids (snr_hashmap : List ((Nat × Nat) × (ℝ × Nat))) : List Nat :=
  snr_hashmap.flatMap fun p => [p.1.1, p.1.2]

/-- Append an identifier to a node table unless already present. -/
def insert_new (xs : List Nat) (i : Nat) : List Nat :=
  if i ∈ xs then xs else xs ++ [i]

/-- Insert a list of identifiers left to right. -/
def insert_all (xs : List Nat) (ids : List Nat) : List Nat :=
  ids.foldl insert_new xs

/-- An identifier has a resolvable position record: the location map
has an entry for it whose position field is present. -/
def resolvableB (loc_hashmap : List (Nat × MeshNode)) (id : Nat) : Bool :=
  match loc_hashmap.lookup id with
  | some m => m.data.position.isSome
  | none => false

/-- Every observation's two endpoints are resolvable. -/
def okB (snr_hashmap : List ((Nat × Nat) × (ℝ × Nat)))
    (loc_hashmap : List (Nat × MeshNode)) : Bool :=
  snr_hashmap.all fun p => resolvableB loc_hashmap p.1.1 && resolvableB loc_hashmap p.1.2

/-- The distance the Builder computes for one observation (junk value 0
when a lookup fails; the Builder then fails before using it). -/
noncomputable def obs_distance (loc_hashmap : List (Nat × MeshNode))
    (o : (Nat × Nat) × (ℝ × Nat)) : ℝ :=
  match loc_hashmap.lookup o.1.1, loc_hashmap.lookup o.1.2 with
  | some a, some b =>
    match get_distance a b with
    | some d => d
    | none => 0
  | _, _ => 0

/-- The weight one observation contributes: its distance combined with
its signal quality. -/
noncomputable def obs_weight (loc_hashmap : List (Nat × MeshNode))
    (o : (Nat × Nat) × (ℝ × Nat)) : ℝ :=
  edge_weight (obs_distance loc_hashmap o) o.2.1

/-- The canonical unordered identifier pair of one observation key. -/
def obs_key (o : (Nat × Nat) × (ℝ × Nat)) : Nat × Nat :=
  canonical_pair o.1.1 o.1.2

/-! ### Basic lemmas -/

theorem canonical_pair_comm (u v : Nat) : canonical_pair u v = canonical_pair v u := by
  unfold canonical_pair
  by_cases h : u ≤ v <;> by_cases h2 : v ≤ u
  all_goals simp [h, h2]
  all_goals omega

theorem canonical_pair_idem (u v : Nat) :
    canonical_pair (canonical_pair u v).1 (canonical_pair u v).2 = canonical_pair u v := by
  unfold canonical_pair
  by_cases h : u ≤ v
  all_goals simp [h]
  all_goals omega

theorem canonical_pair_eq_iff (u v u' v' : Nat) :
    canonical_pair u v = canonical_pair u' v' ↔
      (u = u' ∧ v = v') ∨ (u = v' ∧ v = u') := by
  unfold canonical_pair
  by_cases h : u ≤ v <;> by_cases h2 : u' ≤ v'
  all_goals simp [h, h2, Prod.ext_iff]
  all_goals omega

theorem mem_insert_new {xs : List Nat} {i a : Nat} :
    a ∈ insert_new xs i ↔ a ∈ xs ∨ a = i := by
  unfold insert_new
  by_cases h : i ∈ xs
  · simp only [if_pos h]
    constructor
    · exact Or.inl
    · rintro (ha | rfl)
      · exact ha
      · exact h
  · simp [if_neg h]

theorem self_mem_insert_new {xs : List Nat} {i : Nat} : i ∈ insert_new xs i :=
  mem_insert_new.mpr (Or.inr rfl)

theorem insert_new_suffix (xs : List Nat) (i : Nat) :
    ∃ t, insert_new xs i = xs ++ t := by
  unfold insert_new
  by_cases h : i ∈ xs
  · exact ⟨[], by simp [h]⟩
  · exact ⟨[i], by simp [h]⟩

theorem nodup_insert_new {xs : List Nat} (h : xs.Nodup) (i : Nat) :
    (insert_new xs i).Nodup := by
  unfold insert_new
  by_cases hm : i ∈ xs
  · simpa [hm] using h
  · rw [if_neg hm]
    exact h.append (List.nodup_singleton i)
      (fun a ha hb => hm ((List.mem_singleton.mp hb) ▸ ha))

theorem insert_all_suffix (ids : List Nat) (xs : List Nat) :
    ∃ t, insert_all xs ids = xs ++ t := by
  induction ids generalizing xs with
  | nil => exact ⟨[], by simp [insert_all]⟩
  | cons i rest ih =>
    obtain ⟨t1, ht1⟩ := insert_new_suffix xs i
    obtain ⟨t2, ht2⟩ := ih (insert_new xs i)
    refine ⟨t1 ++ t2, ?_⟩
    simp only [insert_all, List.foldl_cons] at ht2 ⊢
    rw [ht2, ht1, List.append_assoc]

theorem mem_insert_all {ids : List Nat} {xs : List Nat} {a : Nat} :
    a ∈ insert_all xs ids ↔ a ∈ xs ∨ a ∈ ids := by
  induction ids generalizing xs with
  | nil => simp [insert_all]
  | cons i rest ih =>
    simp only [insert_all, List.foldl_cons] at ih ⊢
    rw [ih, mem_insert_new, List.mem_cons]
    tauto

theorem nodup_insert_all {ids : List Nat} {xs : List Nat} (h : xs.Nodup) :
    (insert_all xs ids).Nodup := by
  induction ids generalizing xs with
  | nil => simpa [insert_all] using h
  | cons i rest ih =>
    simp only [insert_all, List.foldl_cons] at ih ⊢
    exact ih (nodup_insert_new h i)

theorem perm_toFinset {α : Type} [DecidableEq α] {l1 l2 : List α} (h : l1.Perm l2) :
    l1.toFinset = l2.toFinset := by
  rw [← List.toFinset_coe, ← List.toFinset_coe, Multiset.coe_eq_coe.mpr h]

theorem perm_flatMap {α β : Type} (f : α → List β) {l1 l2 : List α}
    (h : l1.Perm l2) : (l1.flatMap f).Perm (l2.flatMap f) := by
  induction h with
  | nil => rfl
  | cons x _ ih => simpa using ih.append_left (f x)
  | swap x y l =>
    simp only [List.flatMap_cons, ← List.append_assoc]
    exact (List.perm_append_comm).append_right _
  | trans _ _ ih1 ih2 => exact ih1.trans ih2

theorem toFinset_insert_all (ids : List Nat) (xs : List Nat) :
    (insert_all xs ids).toFinset = xs.toFinset ∪ ids.toFinset := by
  ext a
  simp [mem_insert_all, List.mem_toFinset, Finset.mem_union]

theorem length_insert_all_nil (ids : List Nat) :
    (insert_all [] ids).length = ids.toFinset.card := by
  have hn : (insert_all [] ids).Nodup := nodup_insert_all List.nodup_nil
  have := List.toFinset_card_of_nodup hn
  rw [toFinset_insert_all] at this
  simpa using this.symm

theorem minFold_perm {l1 l2 : List ℝ} (h : l1.Perm l2) : minFold l1 = minFold l2 := by
  induction h with
  | nil => rfl
  | cons x _ ih => simp [minFold, ih]
  | swap x y l =>
    simp only [minFold]
    cases minFold l with
    | none => simp [min_comm]
    | some m => simp [min_left_comm]
  | trans _ _ ih1 ih2 => exact ih1.trans ih2

theorem minFold_ne_nil {l : List ℝ} (h : l ≠ []) :
    minFold l = some ((minFold l).getD 0) := by
  cases l with
  | nil => exact absurd rfl h
  | cons x t => simp [minFold]

theorem add_node_if_not_exists_nodes (g : Graph) (i : Nat) :
    (add_node_to_graph_if_not_exists g i).nodes = insert_new g.nodes i := by
  unfold add_node_to_graph_if_not_exists insert_new Graph.contains_node Graph.add_node
  by_cases h : i ∈ g.nodes
  all_goals simp [h]

theorem add_node_if_not_exists_edges (g : Graph) (i : Nat) :
    (add_node_to_graph_if_not_exists g i).edges = g.edges := by
  unfold add_node_to_graph_if_not_exists Graph.contains_node Graph.add_node
  by_cases h : i ∈ g.nodes
  all_goals simp [h]

/-! ### Loop characterization -/

theorem init_graph_loop_isSome (loc : List (Nat × MeshNode)) :
    ∀ (l : List ((Nat × Nat) × (ℝ × Nat))) (st : LoopState),
    (init_graph_loop loc l st).isSome =
      l.all (fun p => resolvableB loc p.1.1 && resolvableB loc p.1.2) := by
  intro l
  induction l with
  | nil => intro st; rfl
  | cons p rest ih =>
    intro st
    rw [List.all_cons]
    unfold init_graph_loop
    cases h1 : loc.lookup p.1.1 with
    | none => simp [resolvableB, h1]
    | some m1 =>
      cases h2 : loc.lookup p.1.2 with
      | none => simp [resolvableB, h1, h2]
      | some m2 =>
        cases hp1 : m1.data.position with
        | none =>
          have hd : get_distance m1 m2 = none := by
            unfold get_distance; rw [hp1]
          simp [hd, resolvableB, h1, h2, hp1]
        | some q1 =>
          cases hp2 : m2.data.position with
          | none =>
            have hd : get_distance m1 m2 = none := by
              unfold get_distance; rw [hp1, hp2]
            simp [hd, resolvableB, h1, h2, hp1, hp2]
          | some q2 =>
            have hd : ∃ d, get_distance m1 m2 = some d := by
              unfold get_distance; rw [hp1, hp2]; exact ⟨_, rfl⟩
            obtain ⟨d, hd⟩ := hd
            simp only [hd, ih, resolvableB, h1, h2, hp1, hp2, Option.isSome_some,
              Bool.true_and]

theorem init_graph_loop_some (loc : List (Nat × MeshNode)) :
    ∀ (l : List ((Nat × Nat) × (ℝ × Nat))) (st st' : LoopState),
    init_graph_loop loc l st = some st' →
    st'.graph.nodes = insert_all st.graph.nodes (flatten_ids l) ∧
    st'.graph.edges = st.graph.edges ∧
    st'.edge_left_endpoints =
      st.edge_left_endpoints ++ l.map (fun o => st'.graph.nodes.indexOf o.1.1) ∧
    st'.edge_right_endpoints =
      st.edge_right_endpoints ++ l.map (fun o => st'.graph.nodes.indexOf o.1.2) ∧
    st'.edge_distances = st.edge_distances ++ l.map (obs_distance loc) ∧
    st'.edge_radio_quality = st.edge_radio_quality ++ l.map (fun o => o.2.1) := by
  intro l
  induction l with
  | nil =>
    intro st st' h
    cases h
    simp [insert_all, flatten_ids]
  | cons p rest ih =>
    intro st st' h
    unfold init_graph_loop at h
    simp only [] at h
    cases h1 : loc.lookup p.1.1 with
    | none => rw [h1] at h; exact absurd h (by simp)
    | some m1 =>
      cases h2 : loc.lookup p.1.2 with
      | none => rw [h1, h2] at h; exact absurd h (by simp)
      | some m2 =>
        rw [h1, h2] at h
        simp only [] at h
        cases hd : get_distance m1 m2 with
        | none => rw [hd] at h; exact absurd h (by simp)
        | some d =>
          rw [hd] at h
          simp only [] at h
          obtain ⟨hnodes, hedges, hl, hr, hd2, hq⟩ := ih _ _ h
          simp only [] at hnodes hedges hl hr hd2 hq
          set g2 := add_node_to_graph_if_not_exists
            (add_node_to_graph_if_not_exists st.graph p.1.1) p.1.2 with hg2
          have hg2nodes : g2.nodes = insert_new (insert_new st.graph.nodes p.1.1) p.1.2 := by
            rw [hg2, add_node_if_not_exists_nodes, add_node_if_not_exists_nodes]
          have hmem1 : p.1.1 ∈ g2.nodes := by
            rw [hg2nodes]; exact mem_insert_new.mpr (Or.inl self_mem_insert_new)
          have hmem2 : p.1.2 ∈ g2.nodes := by
            rw [hg2nodes]; exact self_mem_insert_new
          have hsuffix : ∃ t, st'.graph.nodes = g2.nodes ++ t := by
            rw [hnodes]; exact insert_all_suffix _ _
          obtain ⟨t, ht⟩ := hsuffix
          have hidx1 : g2.get_node_idx p.1.1 = st'.graph.nodes.indexOf p.1.1 := by
            rw [ht, Graph.get_node_idx, List.indexOf_append_of_mem hmem1]
          have hidx2 : g2.get_node_idx p.1.2 = st'.graph.nodes.indexOf p.1.2 := by
            rw [ht, Graph.get_node_idx, List.indexOf_append_of_mem hmem2]
          have hobsd : obs_distance loc p = d := by
            unfold obs_distance
            simp only [h1, h2, hd]
          refine ⟨?_, ?_, ?_, ?_, ?_, ?_⟩
          · rw [hnodes, hg2nodes]
            simp [flatten_ids, insert_all, List.flatMap_cons]
          · rw [hedges, hg2, add_node_if_not_exists_edges, add_node_if_not_exists_edges]
          · rw [hl, hidx1]
            simp
          · rw [hr, hidx2]
            simp
          · rw [hd2, ← hobsd]
            simp
          · rw [hq]
            simp

/-! ### Structure of a successfully built graph -/

noncomputable def factory_edges (obs : List ((Nat × Nat) × (ℝ × ℝ))) : List GraphEdge :=
  ((obs.map fun o => canonical_pair o.1.1 o.1.2).dedup).map fun p =>
    { u := p.1
      v := p.2
      weight := (minFold ((obs.filter fun o => canonical_pair o.1.1 o.1.2 = p).map
        fun o => edge_weight o.2.1 o.2.2)).getD 0 }

theorem edge_factory_eq (ls rs : List Nat) (ds qs : List ℝ) (a b : Option ℝ) :
    edge_factory ls rs ds qs a b = factory_edges ((ls.zip rs).zip (ds.zip qs)) := rfl

noncomputable def obs_record (loc : List (Nat × MeshNode)) (nodes : List Nat)
    (o : (Nat × Nat) × (ℝ × Nat)) : (Nat × Nat) × (ℝ × ℝ) :=
  ((nodes.indexOf o.1.1, nodes.indexOf o.1.2), (obs_distance loc o, o.2.1))

theorem init_graph_isSome (snr : List ((Nat × Nat) × (ℝ × Nat)))
    (loc : List (Nat × MeshNode)) :
    (init_graph snr loc).isSome = okB snr loc := by
  unfold init_graph okB
  have h := init_graph_loop_isSome loc snr ⟨Graph.new, [], [], [], []⟩
  cases hl : init_graph_loop loc snr ⟨Graph.new, [], [], [], []⟩ with
  | none => rw [hl] at h; simpa using h.symm
  | some st => rw [hl] at h; simpa using h.symm

theorem foldl_add_edge_nodes (es : List GraphEdge) :
    ∀ g : Graph, (es.foldl Graph.add_edge_from_struct g).nodes = g.nodes := by
  induction es with
  | nil => intro g; rfl
  | cons e t ih => intro g; rw [List.foldl_cons, ih]; rfl

theorem foldl_add_edge_edges (es : List GraphEdge) :
    ∀ g : Graph,
    ((g.edges ++ es).map fun e => canonical_pair e.u e.v).Nodup →
    (es.foldl Graph.add_edge_from_struct g).edges = g.edges ++ es := by
  induction es with
  | nil => intro g _; simp
  | cons e t ih =>
    intro g hnd
    rw [List.foldl_cons]
    have hkey : ∀ e0 ∈ g.edges, ¬ (canonical_pair e0.u e0.v = canonical_pair e.u e.v) := by
      intro e0 he0 heq
      rw [List.map_append] at hnd
      have hdisj := List.disjoint_of_nodup_append hnd
      have h1 : canonical_pair e0.u e0.v ∈ g.edges.map fun x => canonical_pair x.u x.v :=
        List.mem_map_of_mem _ he0
      have h2 : canonical_pair e0.u e0.v ∈ (e :: t).map fun x => canonical_pair x.u x.v := by
        rw [heq]
        exact List.mem_map_of_mem _ (List.mem_cons_self e t)
      exact hdisj h1 h2
    have hstep : (Graph.add_edge_from_struct g e).edges = g.edges ++ [e] := by
      unfold Graph.add_edge_from_struct
      simp only []
      rw [List.filter_eq_self.mpr]
      intro e0 he0
      simpa using hkey e0 he0
    have hnd2 : (((Graph.add_edge_from_struct g e).edges ++ t).map
        fun e => canonical_pair e.u e.v).Nodup := by
      rw [hstep]
      have : (g.edges ++ [e]) ++ t = g.edges ++ (e :: t) := by simp
      rw [this]
      exact hnd
    rw [ih _ hnd2, hstep]
    simp

theorem factory_edges_keys (obs : List ((Nat × Nat) × (ℝ × ℝ))) :
    (factory_edges obs).map (fun e => canonical_pair e.u e.v) =
      (obs.map fun o => canonical_pair o.1.1 o.1.2).dedup := by
  unfold factory_edges
  rw [List.map_map]
  have h : ∀ p ∈ (obs.map fun o => canonical_pair o.1.1 o.1.2).dedup,
      canonical_pair p.1 p.2 = p := by
    intro p hp
    rw [List.mem_dedup] at hp
    obtain ⟨o, _, rfl⟩ := List.mem_map.mp hp
    exact canonical_pair_idem _ _
  refine (List.map_congr_left ?_).trans (List.map_id _)
  intro p hp
  exact h p hp

theorem init_graph_some_spec (snr : List ((Nat × Nat) × (ℝ × Nat)))
    (loc : List (Nat × MeshNode)) (g : Graph)
    (h : init_graph snr loc = some g) :
    g.nodes = insert_all [] (flatten_ids snr) ∧
    g.edges = factory_edges (snr.map (obs_record loc g.nodes)) := by
  unfold init_graph at h
  cases hl : init_graph_loop loc snr ⟨Graph.new, [], [], [], []⟩ with
  | none => rw [hl] at h; cases h
  | some st =>
    rw [hl] at h
    simp only [] at h
    obtain ⟨hnodes, hedges, hls, hrs, hds, hqs⟩ := init_graph_loop_some loc snr _ st hl
    simp only [] at hnodes hedges hls hrs hds hqs
    rw [List.nil_append] at hls hrs hds hqs
    have hg : g = (edge_factory st.edge_left_endpoints st.edge_right_endpoints
        st.edge_distances st.edge_radio_quality none none).foldl
          Graph.add_edge_from_struct st.graph := by
      injection h with h
      exact h.symm
    have hobs : (st.edge_left_endpoints.zip st.edge_right_endpoints).zip
        (st.edge_distances.zip st.edge_radio_quality) =
          snr.map (obs_record loc st.graph.nodes) := by
      rw [hls, hrs, hds, hqs, List.zip_map', List.zip_map', List.zip_map']
      rfl
    have hkeysnd : ((st.graph.edges ++ factory_edges
        (snr.map (obs_record loc st.graph.nodes))).map
          fun e => canonical_pair e.u e.v).Nodup := by
      rw [hedges]
      simp only [Graph.new, List.nil_append]
      rw [factory_edges_keys]
      exact List.nodup_dedup _
    have hgn : g.nodes = st.graph.nodes := by
      rw [hg, foldl_add_edge_nodes]
    constructor
    · rw [hgn, hnodes]
      rfl
    · rw [hgn, hg, edge_factory_eq, hobs, foldl_add_edge_edges _ _ hkeysnd, hedges]
      simp only [Graph.new, List.nil_append]

/-! ### Reference characterizations of the built graph -/

theorem init_graph_nodes_spec {snr : List ((Nat × Nat) × (ℝ × Nat))}
    {loc : List (Nat × MeshNode)} {g : Graph} (h : init_graph snr loc = some g) :
    g.nodes = insert_all [] (flatten_ids snr) := (init_graph_some_spec _ _ _ h).1

theorem init_graph_nodes_nodup {snr : List ((Nat × Nat) × (ℝ × Nat))}
    {loc : List (Nat × MeshNode)} {g : Graph} (h : init_graph snr loc = some g) :
    g.nodes.Nodup := by
  rw [init_graph_nodes_spec h]
  exact nodup_insert_all List.nodup_nil

theorem init_graph_mem_nodes {snr : List ((Nat × Nat) × (ℝ × Nat))}
    {loc : List (Nat × MeshNode)} {g : Graph} (h : init_graph snr loc = some g)
    (n : Nat) : n ∈ g.nodes ↔ n ∈ flatten_ids snr := by
  rw [init_graph_nodes_spec h, mem_insert_all]
  simp

theorem init_graph_order {snr : List ((Nat × Nat) × (ℝ × Nat))}
    {loc : List (Nat × MeshNode)} {g : Graph} (h : init_graph snr loc = some g) :
    g.get_order = (flatten_ids snr).toFinset.card := by
  rw [Graph.get_order, init_graph_nodes_spec h, length_insert_all_nil]

theorem mem_flatten_ids_left {snr : List ((Nat × Nat) × (ℝ × Nat))}
    {o : (Nat × Nat) × (ℝ × Nat)} (ho : o ∈ snr) : o.1.1 ∈ flatten_ids snr := by
  unfold flatten_ids
  rw [List.mem_flatMap]
  exact ⟨o, ho, by simp⟩

theorem mem_flatten_ids_right {snr : List ((Nat × Nat) × (ℝ × Nat))}
    {o : (Nat × Nat) × (ℝ × Nat)} (ho : o ∈ snr) : o.1.2 ∈ flatten_ids snr := by
  unfold flatten_ids
  rw [List.mem_flatMap]
  exact ⟨o, ho, by simp⟩

theorem canonical_pair_indexOf (N : List Nat) (a b : Nat) :
    canonical_pair (N.indexOf (canonical_pair a b).1) (N.indexOf (canonical_pair a b).2) =
      canonical_pair (N.indexOf a) (N.indexOf b) := by
  by_cases hab : a ≤ b
  · have he : canonical_pair a b = (a, b) := if_pos hab
    rw [he]
  · have he : canonical_pair a b = (b, a) := if_neg hab
    rw [he]
    exact canonical_pair_comm _ _

theorem obs_key_idx_iff {snr : List ((Nat × Nat) × (ℝ × Nat))}
    {loc : List (Nat × MeshNode)} {g : Graph} (h : init_graph snr loc = some g)
    {a b : Nat} (ha : a ∈ g.nodes) (hb : b ∈ g.nodes)
    {o : (Nat × Nat) × (ℝ × Nat)} (ho : o ∈ snr) :
    canonical_pair (g.nodes.indexOf o.1.1) (g.nodes.indexOf o.1.2) =
        canonical_pair (g.nodes.indexOf a) (g.nodes.indexOf b) ↔
      obs_key o = canonical_pair a b := by
  have h1 : o.1.1 ∈ g.nodes := (init_graph_mem_nodes h _).mpr (mem_flatten_ids_left ho)
  have h2 : o.1.2 ∈ g.nodes := (init_graph_mem_nodes h _).mpr (mem_flatten_ids_right ho)
  rw [canonical_pair_eq_iff, obs_key, canonical_pair_eq_iff]
  constructor
  · rintro (⟨e1, e2⟩ | ⟨e1, e2⟩)
    · exact Or.inl ⟨(List.indexOf_inj h1 ha).mp e1, (List.indexOf_inj h2 hb).mp e2⟩
    · exact Or.inr ⟨(List.indexOf_inj h1 hb).mp e1, (List.indexOf_inj h2 ha).mp e2⟩
  · rintro (⟨e1, e2⟩ | ⟨e1, e2⟩)
    · exact Or.inl ⟨congrArg g.nodes.indexOf e1, congrArg g.nodes.indexOf e2⟩
    · exact Or.inr ⟨congrArg g.nodes.indexOf e1, congrArg g.nodes.indexOf e2⟩

theorem obs_key_idx_ne {snr : List ((Nat × Nat) × (ℝ × Nat))}
    {loc : List (Nat × MeshNode)} {g : Graph} (h : init_graph snr loc = some g)
    {a b : Nat} (hab : a ∉ g.nodes ∨ b ∉ g.nodes)
    {o : (Nat × Nat) × (ℝ × Nat)} (ho : o ∈ snr) :
    ¬ (canonical_pair (g.nodes.indexOf o.1.1) (g.nodes.indexOf o.1.2) =
        canonical_pair (g.nodes.indexOf a) (g.nodes.indexOf b)) ∧
      ¬ (obs_key o = canonical_pair a b) := by
  have h1 : o.1.1 ∈ g.nodes := (init_graph_mem_nodes h _).mpr (mem_flatten_ids_left ho)
  have h2 : o.1.2 ∈ g.nodes := (init_graph_mem_nodes h _).mpr (mem_flatten_ids_right ho)
  have hlt1 : g.nodes.indexOf o.1.1 < g.nodes.length := List.indexOf_lt_length.mpr h1
  have hlt2 : g.nodes.indexOf o.1.2 < g.nodes.length := List.indexOf_lt_length.mpr h2
  constructor
  · intro he
    rw [canonical_pair_eq_iff] at he
    rcases hab with hna | hnb
    · have hea : g.nodes.indexOf a = g.nodes.length := List.indexOf_eq_length.mpr hna
      rcases he with ⟨e1, e2⟩ | ⟨e1, e2⟩ <;> omega
    · have heb : g.nodes.indexOf b = g.nodes.length := List.indexOf_eq_length.mpr hnb
      rcases he with ⟨e1, e2⟩ | ⟨e1, e2⟩ <;> omega
  · intro he
    rw [obs_key, canonical_pair_eq_iff] at he
    rcases hab with hna | hnb
    · rcases he with ⟨e1, e2⟩ | ⟨e1, e2⟩
      · exact hna (e1 ▸ h1)
      · exact hna (e2 ▸ h2)
    · rcases he with ⟨e1, e2⟩ | ⟨e1, e2⟩
      · exact hnb (e2 ▸ h2)
      · exact hnb (e1 ▸ h1)

theorem find?_canonical (mke : Nat × Nat → GraphEdge)
    (hu : ∀ p, (mke p).u = p.1) (hv : ∀ p, (mke p).v = p.2) (K : Nat × Nat) :
    ∀ ks : List (Nat × Nat), (∀ p ∈ ks, canonical_pair p.1 p.2 = p) →
    (ks.map mke).find? (fun e => canonical_pair e.u e.v = K) =
      if K ∈ ks then some (mke K) else none := by
  intro ks
  induction ks with
  | nil => intro _; simp
  | cons p t ih =>
    intro hc
    have hp : canonical_pair (mke p).u (mke p).v = p := by
      rw [hu, hv]
      exact hc p (List.mem_cons_self p t)
    by_cases hpK : p = K
    · subst hpK
      simp only [List.map_cons, List.find?_cons, hp]
      simp [List.mem_cons]
    · rw [List.map_cons, List.find?_cons]
      have : (decide (canonical_pair (mke p).u (mke p).v = K)) = false := by
        simp [hp, hpK]
      rw [this, ih (fun q hq => hc q (List.mem_cons_of_mem p hq))]
      by_cases hKt : K ∈ t
      · simp [hKt, List.mem_cons]
      · simp [hKt, List.mem_cons, Ne.symm hpK]

theorem init_graph_edge_weight {snr : List ((Nat × Nat) × (ℝ × Nat))}
    {loc : List (Nat × MeshNode)} {g : Graph} (h : init_graph snr loc = some g)
    (a b : Nat) (dv pv : Option Bool) :
    g.get_edge_weight a b dv pv =
      minFold ((snr.filter fun o => obs_key o = canonical_pair a b).map (obs_weight loc)) := by
  obtain ⟨hN, hE⟩ := init_graph_some_spec snr loc g h
  simp only [Graph.get_edge_weight, Graph.get_node_idx]
  rw [hE]
  unfold factory_edges
  have hcanon : ∀ p ∈ ((snr.map (obs_record loc g.nodes)).map
      fun o => canonical_pair o.1.1 o.1.2).dedup, canonical_pair p.1 p.2 = p := by
    intro p hp
    rw [List.mem_dedup] at hp
    obtain ⟨o, _, rfl⟩ := List.mem_map.mp hp
    exact canonical_pair_idem _ _
  rw [find?_canonical _ (fun p => rfl) (fun p => rfl)
    (canonical_pair (g.nodes.indexOf a) (g.nodes.indexOf b)) _ hcanon]
  have hmapmap : (snr.map (obs_record loc g.nodes)).map
      (fun o => canonical_pair o.1.1 o.1.2) =
      snr.map fun o => canonical_pair (g.nodes.indexOf o.1.1) (g.nodes.indexOf o.1.2) := by
    rw [List.map_map]
    rfl
  by_cases hmem : a ∈ g.nodes ∧ b ∈ g.nodes
  · obtain ⟨ha, hb⟩ := hmem
    have hfiltereq : ((snr.map (obs_record loc g.nodes)).filter
        fun o => canonical_pair o.1.1 o.1.2 =
          canonical_pair (g.nodes.indexOf a) (g.nodes.indexOf b)).map
            (fun o => edge_weight o.2.1 o.2.2) =
        (snr.filter fun o => obs_key o = canonical_pair a b).map (obs_weight loc) := by
      rw [List.filter_map, List.map_map]
      have hfc : snr.filter ((fun o => decide (canonical_pair o.1.1 o.1.2 =
            canonical_pair (g.nodes.indexOf a) (g.nodes.indexOf b))) ∘
              (obs_record loc g.nodes)) =
          snr.filter fun o => obs_key o = canonical_pair a b := by
        apply List.filter_congr
        intro o ho
        simp only [Function.comp]
        exact decide_eq_decide.mpr (obs_key_idx_iff h ha hb ho)
      rw [hfc]
      rfl
    have hKiff : (canonical_pair (g.nodes.indexOf a) (g.nodes.indexOf b)) ∈
        ((snr.map (obs_record loc g.nodes)).map
          fun o => canonical_pair o.1.1 o.1.2).dedup ↔
        (snr.filter fun o => obs_key o = canonical_pair a b) ≠ [] := by
      rw [List.mem_dedup, hmapmap, List.mem_map]
      rw [Ne, List.filter_eq_nil_iff]
      constructor
      · rintro ⟨o, ho, he⟩ hall
        exact hall o ho (by simpa using (obs_key_idx_iff h ha hb ho).mp he)
      · intro hne
        push_neg at hne
        obtain ⟨o, ho, hdec⟩ := hne
        refine ⟨o, ho, ?_⟩
        have hok : obs_key o = canonical_pair a b := by simpa using hdec
        exact (obs_key_idx_iff h ha hb ho).mpr hok
    by_cases hK : (canonical_pair (g.nodes.indexOf a) (g.nodes.indexOf b)) ∈
        ((snr.map (obs_record loc g.nodes)).map
          fun o => canonical_pair o.1.1 o.1.2).dedup
    · rw [if_pos hK]
      have hne := hKiff.mp hK
      have hmapne : (snr.filter fun o => obs_key o = canonical_pair a b).map
          (obs_weight loc) ≠ [] := by
        intro hnil
        exact hne (List.map_eq_nil_iff.mp hnil)
      rw [minFold_ne_nil hmapne]
      rw [Option.map_some']
      congr 1
      rw [hfiltereq]
    · rw [if_neg hK]
      have hnil : (snr.filter fun o => obs_key o = canonical_pair a b) = [] := by
        by_contra hne
        exact hK (hKiff.mpr hne)
      rw [hnil]
      rfl
  · have hab : a ∉ g.nodes ∨ b ∉ g.nodes := by
      by_cases hahere : a ∈ g.nodes
      · exact Or.inr fun hbmem => hmem ⟨hahere, hbmem⟩
      · exact Or.inl hahere
    have hK : (canonical_pair (g.nodes.indexOf a) (g.nodes.indexOf b)) ∉
        ((snr.map (obs_record loc g.nodes)).map
          fun o => canonical_pair o.1.1 o.1.2).dedup := by
      intro hKmem
      rw [List.mem_dedup, hmapmap, List.mem_map] at hKmem
      obtain ⟨o, ho, he⟩ := hKmem
      exact (obs_key_idx_ne h hab ho).1 he
    rw [if_neg hK]
    have hnil : (snr.filter fun o => obs_key o = canonical_pair a b) = [] := by
      rw [List.filter_eq_nil_iff]
      intro o ho
      simpa using (obs_key_idx_ne h hab ho).2
    rw [hnil]
    rfl

theorem obs_key_facts {snr : List ((Nat × Nat) × (ℝ × Nat))} {p : Nat × Nat}
    (hp : p ∈ snr.map obs_key) :
    p.1 ∈ flatten_ids snr ∧ p.2 ∈ flatten_ids snr ∧ p.1 ≤ p.2 := by
  obtain ⟨o, ho, rfl⟩ := List.mem_map.mp hp
  have h1 := mem_flatten_ids_left ho
  have h2 := mem_flatten_ids_right ho
  unfold obs_key canonical_pair
  by_cases hle : o.1.1 ≤ o.1.2
  · simp only [if_pos hle]
    exact ⟨h1, h2, hle⟩
  · simp only [if_neg hle]
    exact ⟨h2, h1, by omega⟩

theorem list_toFinset_map {α β : Type} [DecidableEq α] [DecidableEq β]
    (l : List α) (f : α → β) : (l.map f).toFinset = l.toFinset.image f := by
  ext x
  simp [List.mem_toFinset, List.mem_map, Finset.mem_image]

theorem init_graph_size {snr : List ((Nat × Nat) × (ℝ × Nat))}
    {loc : List (Nat × MeshNode)} {g : Graph} (h : init_graph snr loc = some g) :
    g.get_size = (snr.map obs_key).toFinset.card := by
  obtain ⟨hN, hE⟩ := init_graph_some_spec snr loc g h
  rw [Graph.get_size, hE]
  unfold factory_edges
  rw [List.length_map]
  have hdedup : ((snr.map (obs_record loc g.nodes)).map
      (fun o => canonical_pair o.1.1 o.1.2)).dedup.length =
      ((snr.map (obs_record loc g.nodes)).map
        (fun o => canonical_pair o.1.1 o.1.2)).toFinset.card :=
    (List.card_toFinset _).symm
  rw [hdedup]
  have hmapmap : (snr.map (obs_record loc g.nodes)).map
      (fun o => canonical_pair o.1.1 o.1.2) =
      (snr.map obs_key).map
        (fun p => canonical_pair (g.nodes.indexOf p.1) (g.nodes.indexOf p.2)) := by
    rw [List.map_map, List.map_map]
    apply List.map_congr_left
    intro o _
    simp only [Function.comp]
    exact (canonical_pair_indexOf g.nodes o.1.1 o.1.2).symm
  rw [hmapmap]
  rw [list_toFinset_map]
  apply Finset.card_image_of_injOn
  intro p hp q hq he
  rw [Finset.mem_coe, List.mem_toFinset] at hp hq
  obtain ⟨hp1, hp2, hple⟩ := obs_key_facts hp
  obtain ⟨hq1, hq2, hqle⟩ := obs_key_facts hq
  have hp1' : p.1 ∈ g.nodes := (init_graph_mem_nodes h _).mpr hp1
  have hp2' : p.2 ∈ g.nodes := (init_graph_mem_nodes h _).mpr hp2
  have hq1' : q.1 ∈ g.nodes := (init_graph_mem_nodes h _).mpr hq1
  have hq2' : q.2 ∈ g.nodes := (init_graph_mem_nodes h _).mpr hq2
  simp only [canonical_pair_eq_iff] at he
  rcases he with ⟨e1, e2⟩ | ⟨e1, e2⟩
  · have f1 : p.1 = q.1 := (List.indexOf_inj hp1' hq1').mp e1
    have f2 : p.2 = q.2 := (List.indexOf_inj hp2' hq2').mp e2
    exact Prod.ext f1 f2
  · have f1 : p.1 = q.2 := (List.indexOf_inj hp1' hq2').mp e1
    have f2 : p.2 = q.1 := (List.indexOf_inj hp2' hq1').mp e2
    have : p.1 = q.1 ∧ p.2 = q.2 := by omega
    exact Prod.ext this.1 this.2
/-! ### Concrete example inputs -/

/-- Location map of the `test_init_graph` test: four nodes, all at the
zeroed position. -/
def exLoc1 : List (Nat × MeshNode) :=
  [(1, ⟨⟨1, some ⟨0, 0, 0⟩⟩⟩), (2, ⟨⟨2, some ⟨0, 0, 0⟩⟩⟩),
   (3, ⟨⟨3, some ⟨0, 0, 0⟩⟩⟩), (4, ⟨⟨4, some ⟨0, 0, 0⟩⟩⟩)]

/-- Observation map of the `test_init_graph` test: every pair of
{1,2,3,4} observed once with signal quality 0.9 at timestamp 0, in the
insertion order of the test. -/
noncomputable def exSnr1 : List ((Nat × Nat) × (ℝ × Nat)) :=
  [((1, 2), (0.9, 0)), ((1, 3), (0.9, 0)), ((1, 4), (0.9, 0)),
   ((2, 3), (0.9, 0)), ((2, 4), (0.9, 0)), ((3, 4), (0.9, 0))]

/-- Location map of the `test_prioritize_earlier_snr` test: node 1 at
the fixed-point encoding of (43.7022, 72.2882), node 2 at
(43.7030, 72.2890), both at altitude 0. -/
def exLoc2 : List (Nat × MeshNode) :=
  [(1, ⟨⟨1, some ⟨437022000, 722882000, 0⟩⟩⟩),
   (2, ⟨⟨2, some ⟨437030000, 722890000, 0⟩⟩⟩)]

/-- Observation map of the `test_prioritize_earlier_snr` test: the
unordered pair {1,2} observed in both directions — (1,2) with quality
0.1 at timestamp 100, (2,1) with quality 0.9 at timestamp 0. -/
noncomputable def exSnrA : List ((Nat × Nat) × (ℝ × Nat)) :=
  [((1, 2), (0.1, 100)), ((2, 1), (0.9, 0))]

/-- The same observations as `exSnrA` with the two timestamps swapped:
now (2,1) with quality 0.9 is the later observation. -/
noncomputable def exSnrB : List ((Nat × Nat) × (ℝ × Nat)) :=
  [((1, 2), (0.1, 0)), ((2, 1), (0.9, 100))]

/-- Two disjoint observations in one order. -/
noncomputable def exSnrC : List ((Nat × Nat) × (ℝ × Nat)) :=
  [((1, 2), (0.9, 0)), ((3, 4), (0.9, 0))]

/-- The same two observations in the other iteration order. -/
noncomputable def exSnrD : List ((Nat × Nat) × (ℝ × Nat)) :=
  [((3, 4), (0.9, 0)), ((1, 2), (0.9, 0))]

/-- A single observation of the pair (1,2). -/
noncomputable def exSnrE : List ((Nat × Nat) × (ℝ × Nat)) :=
  [((1, 2), (0.5, 7))]

/-- An empty location map. -/
def exLocEmpty : List (Nat × MeshNode) := []

/-- A sample node record with a present position. -/
def exNode1 : MeshNode := ⟨⟨1, some ⟨437022000, 722882000, 0⟩⟩⟩

/-- A second sample node record with a present position. -/
def exNode2 : MeshNode := ⟨⟨2, some ⟨437030000, 722890000, 0⟩⟩⟩

/-! ### Distance symmetry facts -/

theorem sin_sq_sub_comm (x y : ℝ) :
    Real.sin ((x - y) / 2) ^ 2 = Real.sin ((y - x) / 2) ^ 2 := by
  have h : (x - y) / 2 = -((y - x) / 2) := by ring
  rw [h, Real.sin_neg, neg_sq]

theorem haversine_symm (lat1 lon1 lat2 lon2 : ℝ) :
    haversine lat1 lon1 lat2 lon2 = haversine lat2 lon2 lat1 lon1 := by
  unfold haversine
  simp only []
  have harg :
      Real.sin ((lat2 * (Real.pi / 180) - lat1 * (Real.pi / 180)) / 2) ^ 2 +
        Real.cos (lat1 * (Real.pi / 180)) * Real.cos (lat2 * (Real.pi / 180)) *
          Real.sin ((lon2 * (Real.pi / 180) - lon1 * (Real.pi / 180)) / 2) ^ 2 =
      Real.sin ((lat1 * (Real.pi / 180) - lat2 * (Real.pi / 180)) / 2) ^ 2 +
        Real.cos (lat2 * (Real.pi / 180)) * Real.cos (lat1 * (Real.pi / 180)) *
          Real.sin ((lon1 * (Real.pi / 180) - lon2 * (Real.pi / 180)) / 2) ^ 2 := by
    rw [sin_sq_sub_comm (lat2 * (Real.pi / 180)) (lat1 * (Real.pi / 180)),
      sin_sq_sub_comm (lon2 * (Real.pi / 180)) (lon1 * (Real.pi / 180))]
    ring
  rw [harg]

theorem total_distance_symm (lat1 lon1 alt1 lat2 lon2 alt2 : ℝ) :
    total_distance lat1 lon1 alt1 lat2 lon2 alt2 =
      total_distance lat2 lon2 alt2 lat1 lon1 alt1 := by
  unfold total_distance
  rw [haversine_symm]
  have h : (alt2 - alt1) ^ 2 = (alt1 - alt2) ^ 2 := by ring
  rw [h]

theorem haversine_self (lat lon : ℝ) : haversine lat lon lat lon = 0 := by
  unfold haversine
  simp [sub_self, Real.sin_zero, Real.sqrt_zero, Real.arcsin_zero]

theorem total_distance_self (lat lon alt : ℝ) :
    total_distance lat lon alt lat lon alt = 0 := by
  unfold total_distance
  rw [haversine_self]
  simp [Real.sqrt_zero]

/-- Inserting an already-present identifier is a no-op. -/
theorem addIf_of_mem {g : Graph} {i : Nat} (h : i ∈ g.nodes) :
    add_node_to_graph_if_not_exists g i = g := by
  unfold add_node_to_graph_if_not_exists Graph.contains_node
  simp [h]

/-- Observational equivalence of two build results: same failure
behavior, and on success the same order, size, node-name membership and
per-pair resolved edge weights. -/
def ObsEquiv (o1 o2 : Option Graph) : Prop :=
  (o1 = none ↔ o2 = none) ∧
  ∀ g1 g2, o1 = some g1 → o2 = some g2 →
    g1.get_order = g2.get_order ∧
    g1.get_size = g2.get_size ∧
    (∀ n, n ∈ g1.nodes ↔ n ∈ g2.nodes) ∧
    ∀ a b dv pv, g1.get_edge_weight a b dv pv = g2.get_edge_weight a b dv pv

/-! ### Claims -/

/-- C1: the claim says the resolved edge weight for a pair observed in
both directions is derived from the later-timestamped observation's
signal quality. The code cannot do this: the `init_graph` loop reads
only the SNR component of each observation (`neighbor_pair.1 .0`) and
drops the timestamp, so `edge_factory` receives no timestamps. This
theorem evaluates the build at the failing input: the test snapshot
(pair (1,2) quality 0.1 timestamp 100; pair (2,1) quality 0.9
timestamp 0) and the same snapshot with the two timestamps swapped
produce the very same graph, so the resolved weight cannot track which
direction carries the later timestamp. -/
theorem claim_C1_timestamps_discarded :
    init_graph exSnrA exLoc2 = init_graph exSnrB exLoc2 := rfl

/-- C2: for every telemetry snapshot whose build succeeds, the order of
the resulting graph equals exactly the number of distinct node
identifiers appearing as either component of any observation key, and a
node is in the graph exactly when it appears in some observation — so
an identifier present only in the location map is never inserted. -/
theorem claim_C2 (snr : List ((Nat × Nat) × (ℝ × Nat)))
    (loc : List (Nat × MeshNode)) (g : Graph) (h : init_graph snr loc = some g) :
    g.get_order = (flatten_ids snr).toFinset.card ∧
      ∀ n, n ∈ g.nodes ↔ n ∈ flatten_ids snr :=
  ⟨init_graph_order h, fun n => init_graph_mem_nodes h n⟩

/-- C2 witness: the four-node test snapshot instantiates the theorem. -/
theorem claim_C2_witness :
    ((init_graph exSnr1 exLoc1).getD Graph.new).get_order =
      (flatten_ids exSnr1).toFinset.card :=
  (claim_C2 exSnr1 exLoc1 _ (by rfl)).1

/-- C3: if any observation has an endpoint with no resolvable position
record (no location entry, or an absent position field), the whole
build fails — `init_graph` produces no graph at all, and in particular
never a graph with a defaulted distance. -/
theorem claim_C3 (snr : List ((Nat × Nat) × (ℝ × Nat)))
    (loc : List (Nat × MeshNode)) (p : (Nat × Nat) × (ℝ × Nat)) (hp : p ∈ snr)
    (hbad : resolvableB loc p.1.1 = false ∨ resolvableB loc p.1.2 = false) :
    init_graph snr loc = none := by
  have hok : okB snr loc = false := by
    unfold okB
    rw [List.all_eq_false]
    refine ⟨p, hp, ?_⟩
    rcases hbad with hb | hb <;> simp [hb]
  have hs := init_graph_isSome snr loc
  rw [hok] at hs
  cases hinit : init_graph snr loc with
  | none => rfl
  | some g => rw [hinit] at hs; simp at hs

/-- C3 witness: one observation against an empty location map fails
the whole build. -/
theorem claim_C3_witness : init_graph exSnrE exLocEmpty = none :=
  claim_C3 exSnrE exLocEmpty ((1, 2), (0.5, 7)) (List.mem_singleton.mpr rfl)
    (Or.inl rfl)

/-- C4: a freshly constructed AlgoStore has all five slots Empty, and
for every store state and value x, `set_aps (Success x)` makes
`get_aps` return exactly `Success x` while the other four slots keep
their prior values. -/
theorem claim_C4 :
    (AlgoStore.new.get_aps = APResult.Empty true ∧
      AlgoStore.new.get_mincut = MinCutResult.Empty true ∧
      AlgoStore.new.get_diff_cent = DiffCenResult.Empty true ∧
      AlgoStore.new.get_most_sim_t = MostSimTResult.Empty true ∧
      AlgoStore.new.get_pred_state = PredStateResult.Empty true) ∧
    ∀ (s : AlgoStore) (x : List Nat),
      (s.set_aps (APResult.Success x)).get_aps = APResult.Success x ∧
      (s.set_aps (APResult.Success x)).get_mincut = s.get_mincut ∧
      (s.set_aps (APResult.Success x)).get_diff_cent = s.get_diff_cent ∧
      (s.set_aps (APResult.Success x)).get_most_sim_t = s.get_most_sim_t ∧
      (s.set_aps (APResult.Success x)).get_pred_state = s.get_pred_state :=
  ⟨⟨rfl, rfl, rfl, rfl, rfl⟩, fun _ _ => ⟨rfl, rfl, rfl, rfl, rfl⟩⟩

/-- C5: `set_pred_state` and `set_most_sim_t` always store exactly
`Success g`, and through any sequence of calls of these two setters the
two slots either keep their initial value or hold some `Success` — they
can never be set to Error or reset to Empty this way. -/
theorem claim_C5 :
    (∀ (s : AlgoStore) (g : Graph),
      (s.set_pred_state g).get_pred_state = PredStateResult.Success g) ∧
    (∀ (s : AlgoStore) (g : Graph),
      (s.set_most_sim_t g).get_most_sim_t = MostSimTResult.Success g) ∧
    ∀ (s : AlgoStore) (calls : List (Graph ⊕ Graph)),
      ((apply_graph_setters s calls).get_pred_state = s.get_pred_state ∨
        ∃ g, (apply_graph_setters s calls).get_pred_state = PredStateResult.Success g) ∧
      ((apply_graph_setters s calls).get_most_sim_t = s.get_most_sim_t ∨
        ∃ g, (apply_graph_setters s calls).get_most_sim_t = MostSimTResult.Success g) := by
  refine ⟨fun _ _ => rfl, fun _ _ => rfl, ?_⟩
  intro s calls
  induction calls generalizing s with
  | nil => exact ⟨Or.inl rfl, Or.inl rfl⟩
  | cons c t ih =>
    rcases c with g | g
    · rcases ih (s.set_pred_state g) with ⟨h1, h2⟩
      constructor
      · rcases h1 with h1 | h1
        · exact Or.inr ⟨g, h1⟩
        · exact Or.inr h1
      · rcases h2 with h2 | h2
        · exact Or.inl h2
        · exact Or.inr h2
    · rcases ih (s.set_most_sim_t g) with ⟨h1, h2⟩
      constructor
      · rcases h1 with h1 | h1
        · exact Or.inl h1
        · exact Or.inr h1
      · rcases h2 with h2 | h2
        · exact Or.inr ⟨g, h2⟩
        · exact Or.inr h2

/-- C6 counterexample: the claim says the graphs resulting from two
iteration orders of the same snapshot are equal. They are not: with the
observations (1,2) and (3,4) presented in the two orders, the internal
node-index assignment differs (node table [1,2,3,4] versus [3,4,1,2]),
so the two Graph values differ. -/
theorem claim_C6_counterexample :
    ¬ (init_graph exSnrC exLoc1 = init_graph exSnrD exLoc1) := by
  intro hcl
  have h1 : (init_graph exSnrC exLoc1).map Graph.nodes = some [1, 2, 3, 4] := rfl
  have h2 : (init_graph exSnrD exLoc1).map Graph.nodes = some [3, 4, 1, 2] := rfl
  rw [hcl] at h1
  rw [h1] at h2
  simp at h2

/-- C6 amended: two runs of `init_graph` on the same snapshot presented
in any two iteration orders are observationally equivalent — the builds
fail together, and on success the graphs agree on order, size,
node-name membership and the resolved weight of every unordered pair —
although the raw Graph values (internal index assignment) depend on
iteration order, and conflicting observations are resolved by an
order-independent rule on the computed weights rather than by
timestamp (the code discards timestamps). -/
theorem claim_C6_amended (snr1 snr2 : List ((Nat × Nat) × (ℝ × Nat)))
    (loc : List (Nat × MeshNode)) (hp : snr1.Perm snr2) :
    ObsEquiv (init_graph snr1 loc) (init_graph snr2 loc) := by
  have hok : okB snr1 loc = okB snr2 loc := by
    have hiff : okB snr1 loc = true ↔ okB snr2 loc = true := by
      unfold okB
      rw [List.all_eq_true, List.all_eq_true]
      constructor
      · intro hall o ho
        exact hall o (hp.mem_iff.mpr ho)
      · intro hall o ho
        exact hall o (hp.mem_iff.mp ho)
    cases h1 : okB snr1 loc <;> cases h2 : okB snr2 loc <;>
      rw [h1, h2] at hiff <;> simp at hiff ⊢
  have e1 := init_graph_isSome snr1 loc
  have e2 := init_graph_isSome snr2 loc
  rw [hok] at e1
  constructor
  · constructor
    · intro hn
      rw [hn] at e1
      cases h2 : init_graph snr2 loc with
      | none => rfl
      | some g =>
        rw [h2] at e2
        rw [← e1] at e2
        simp at e2
    · intro hn
      rw [hn] at e2
      cases h1 : init_graph snr1 loc with
      | none => rfl
      | some g =>
        rw [h1] at e1
        rw [← e2] at e1
        simp at e1
  · intro g1 g2 h1 h2
    refine ⟨?_, ?_, ?_, ?_⟩
    · rw [init_graph_order h1, init_graph_order h2]
      congr 1
      exact perm_toFinset (perm_flatMap _ hp)
    · rw [init_graph_size h1, init_graph_size h2]
      congr 1
      exact perm_toFinset (hp.map obs_key)
    · intro n
      rw [init_graph_mem_nodes h1 n, init_graph_mem_nodes h2 n]
      exact (perm_flatMap _ hp).mem_iff
    · intro a b dv pv
      rw [init_graph_edge_weight h1 a b dv pv, init_graph_edge_weight h2 a b dv pv]
      exact minFold_perm ((hp.filter _).map _)

/-- C6 witness: the two iteration orders of the two-observation
snapshot instantiate the amended theorem. -/
theorem claim_C6_witness :
    ObsEquiv (init_graph exSnrC exLoc1) (init_graph exSnrD exLoc1) :=
  claim_C6_amended exSnrC exSnrD exLoc1 (List.Perm.swap _ _ _)

/-- C7: every successfully built graph has at most one edge per
unordered node pair (the canonical endpoint pairs of its edge list are
pairwise distinct — no parallel edges); and on the four-node test
snapshot with every pair observed once the result has order 4 and
size 6. -/
theorem claim_C7 :
    (∀ (snr : List ((Nat × Nat) × (ℝ × Nat))) (loc : List (Nat × MeshNode))
      (g : Graph), init_graph snr loc = some g →
        (g.edges.map fun e => canonical_pair e.u e.v).Nodup) ∧
    (init_graph exSnr1 exLoc1).map Graph.get_order = some 4 ∧
    (init_graph exSnr1 exLoc1).map Graph.get_size = some 6 := by
  refine ⟨?_, rfl, rfl⟩
  intro snr loc g h
  rw [(init_graph_some_spec snr loc g h).2, factory_edges_keys]
  exact List.nodup_dedup _

/-- C7 witness: the four-node test snapshot instantiates the
no-parallel-edges part of the theorem. -/
theorem claim_C7_witness :
    (((init_graph exSnr1 exLoc1).getD Graph.new).edges.map
      fun e => canonical_pair e.u e.v).Nodup :=
  claim_C7.1 exSnr1 exLoc1 _ (by rfl)

/-- C8: node insertion through `add_node_to_graph_if_not_exists` is
idempotent — inserting the same identifier twice is a no-op, the
identifier occurs exactly once in the node table (for any
duplicate-free graph state), and its internal index is not reassigned
by a subsequent insertion of any identifier. -/
theorem claim_C8 (g : Graph) (i j : Nat) (h : g.nodes.Nodup) :
    add_node_to_graph_if_not_exists (add_node_to_graph_if_not_exists g i) i =
      add_node_to_graph_if_not_exists g i ∧
    (add_node_to_graph_if_not_exists g i).nodes.count i = 1 ∧
    (add_node_to_graph_if_not_exists
        (add_node_to_graph_if_not_exists g i) j).get_node_idx i =
      (add_node_to_graph_if_not_exists g i).get_node_idx i := by
  have hmem : i ∈ (add_node_to_graph_if_not_exists g i).nodes := by
    rw [add_node_if_not_exists_nodes]
    exact self_mem_insert_new
  refine ⟨addIf_of_mem hmem, ?_, ?_⟩
  · rw [add_node_if_not_exists_nodes]
    unfold insert_new
    by_cases hm : i ∈ g.nodes
    · rw [if_pos hm]
      exact List.count_eq_one_of_mem h hm
    · rw [if_neg hm]
      rw [List.count_append]
      rw [List.count_eq_zero.mpr hm]
      simp
  · rw [Graph.get_node_idx, Graph.get_node_idx, add_node_if_not_exists_nodes
      (add_node_to_graph_if_not_exists g i) j]
    unfold insert_new
    by_cases hm : j ∈ (add_node_to_graph_if_not_exists g i).nodes
    · rw [if_pos hm]
    · rw [if_neg hm]
      exact List.indexOf_append_of_mem hmem

/-- C8 witness: inserting 7 twice into the empty graph, then 9. -/
theorem claim_C8_witness :
    add_node_to_graph_if_not_exists (add_node_to_graph_if_not_exists Graph.new 7) 7 =
      add_node_to_graph_if_not_exists Graph.new 7 :=
  (claim_C8 Graph.new 7 9 (by decide)).1

/-- C9: for node records with present positions, `get_distance` is
symmetric, and it is zero for two records with identical position
fields. -/
theorem claim_C9 :
    (∀ A B : MeshNode, A.data.position.isSome → B.data.position.isSome →
      get_distance A B = get_distance B A) ∧
    ∀ (A B : MeshNode) (p : Position), A.data.position = some p →
      B.data.position = some p → get_distance A B = some 0 := by
  constructor
  · intro A B hA hB
    obtain ⟨p1, hp1⟩ := Option.isSome_iff_exists.mp hA
    obtain ⟨p2, hp2⟩ := Option.isSome_iff_exists.mp hB
    unfold get_distance
    rw [hp1, hp2]
    simp only []
    rw [total_distance_symm]
  · intro A B p hA hB
    unfold get_distance
    rw [hA, hB]
    simp only []
    rw [total_distance_self]

/-- C9 witness: the two sample node records instantiate both parts. -/
theorem claim_C9_witness :
    get_distance exNode1 exNode2 = get_distance exNode2 exNode1 ∧
      get_distance exNode1 exNode1 = some 0 :=
  ⟨claim_C9.1 exNode1 exNode2 rfl rfl, claim_C9.2 exNode1 exNode1 _ rfl rfl⟩

/-- C10: when every identifier appearing in some observation key has a
location entry whose position is present, every lookup and position
unwrap in the build succeeds — the panic branches (modelled as `none`)
are unreachable and `init_graph` returns a graph. -/
theorem claim_C10 (snr : List ((Nat × Nat) × (ℝ × Nat)))
    (loc : List (Nat × MeshNode))
    (h : ∀ p ∈ snr, resolvableB loc p.1.1 = true ∧ resolvableB loc p.1.2 = true) :
    (init_graph snr loc).isSome = true := by
  rw [init_graph_isSome]
  unfold okB
  rw [List.all_eq_true]
  intro p hp
  rcases h p hp with ⟨h1, h2⟩
  simp [h1, h2]

/-- C10 witness: one observation whose endpoints both have resolvable
positions yields a graph. -/
theorem claim_C10_witness : (init_graph exSnrE exLoc2).isSome = true :=
  claim_C10 exSnrE exLoc2 (by
    intro p hp
    simp only [exSnrE, List.mem_singleton] at hp
    subst hp
    exact ⟨rfl, rfl⟩)
